import Mathlib

/-!
Shallow embedding of the `make_rs` library (`src/lib.rs`): the staleness
comparator `is_newer`, the conditional copier `copy`, and the command
dispatcher `Maker` with its terminal `make` step.

Filesystem paths are modelled as their lists of normal components, and the
filesystem state visible to the library is an explicit record: each path's
last-modified time (`none` when metadata or the modification time cannot be
read), whether a path names an existing directory, whether a path can be
written, and the current clock used to stamp completed writes. Registered
actions are `FnOnce() -> Result<()>` closures whose only behaviour visible
to the dispatcher is the result they return, so an action is modelled by
that result. `make` returns the observable effects of a dispatch: the
invoked entries, the registry left behind, and the lines printed to the
error stream.
-/

namespace MakeRs

/-- A filesystem path, modelled as its list of normal components. -/
abbrev Path := List String

/-- `Path::file_name()`: the final component, `none` when there is none. -/
def fileName (p : Path) : Option String :=
  p.getLast?

/-- The filesystem state visible to the library. -/
structure FS where
  mtime : Path → Option Nat
  isDir : Path → Bool
  writable : Path → Bool
  now : Nat

/-- `is_newer(target, base)` (`src/lib.rs:43-48`): read both modification
times and report whether the target's strictly exceeds the base's; `none`
models the propagated error when either read fails. -/
def is_newer (fs : FS) (target base : Path) : Option Bool :=
  match fs.mtime target with
  | none => none
  | some t =>
    match fs.mtime base with
    | none => none
    | some b => some (decide (b < t))

/-- `std::fs::copy(src, dst)`: succeeds when the source's metadata is
readable and the destination is writable, stamping the destination with the
current clock; fails otherwise, leaving the state unchanged. -/
def fsCopy (fs : FS) (src dst : Path) : Option FS :=
  if (fs.mtime src).isSome && fs.writable dst then
    some { fs with mtime := fun p => if p = dst then some fs.now else fs.mtime p }
  else
    none

/-- What one iteration of the `copy` loop did to its item. -/
inductive WriteOutcome
  | skipped
  | wrote
  | failedWrite
deriving DecidableEq, Repr

/-- The per-item destination (`src/lib.rs:57-65`): when the destination
names an existing directory, join it with the source's filename, failing
when the source has none; otherwise the destination verbatim. -/
def effectiveDest (fs : FS) (src dest : Path) : Except String Path :=
  if fs.isDir dest then
    match fileName src with
    | some f => Except.ok (dest ++ [f])
    | none => Except.error "Source has no filename and dest is a dir"
  else
    Except.ok dest

/-- One iteration of the `copy` loop (`src/lib.rs:56-71`): compute the
destination, consult `is_newer` treating its failure as `true`
(`unwrap_or(true)`), and attempt the write, swallowing a write failure
(`let _ = std::fs::copy(..)`). -/
def copyOne (fs : FS) (src dest : Path) : Except String (FS × WriteOutcome) :=
  match effectiveDest fs src dest with
  | Except.error e => Except.error e
  | Except.ok d =>
    if (is_newer fs src d).getD true then
      match fsCopy fs src d with
      | some fs2 => Except.ok (fs2, WriteOutcome.wrote)
      | none => Except.ok (fs, WriteOutcome.failedWrite)
    else
      Except.ok (fs, WriteOutcome.skipped)

/-- `copy(src, dest)` (`src/lib.rs:50-72`): iterate the sources in order,
propagating only the missing-filename error; the returned outcome list is a
ghost observation of what each iteration did. -/
def copy (fs : FS) (srcs : List Path) (dest : Path) :
    Except String (FS × List WriteOutcome) :=
  match srcs with
  | [] => Except.ok (fs, [])
  | s :: rest =>
    match copyOne fs s dest with
    | Except.error e => Except.error e
    | Except.ok (fs2, o) =>
      match copy fs2 rest dest with
      | Except.error e => Except.error e
      | Except.ok (fs3, os) => Except.ok (fs3, o :: os)

/-- A registered action, modelled by the result invoking it returns. -/
abbrev Act := Except String Unit

/-- The dispatcher state (`struct Maker`): registered `(name, action)`
pairs in registration order plus the optional default name. -/
structure Maker where
  commands : List (String × Act)
  default : Option String

/-- `self.commands.iter().enumerate().find(|(_, (cmd, _))| cmd == &target)`:
the first entry, with its index, whose name equals the target. -/
def findCmd : List (String × Act) → String → Option (Nat × String × Act)
  | [], _ => none
  | (n, a) :: rest, t =>
    if n = t then some (0, n, a)
    else (findCmd rest t).map (fun q => (q.1 + 1, q.2.1, q.2.2))

/-- The requested command name (`src/lib.rs:118-127`): the first external
argument when one is supplied (`std::env::args().skip(1).next()`, so `args`
here excludes the program name), else the configured default. -/
def requestedName (args : List String) (dflt : Option String) : Option String :=
  match args with
  | cmd :: _ => some cmd
  | [] => dflt

instance : DecidableEq Act := fun a b =>
  match a, b with
  | Except.ok x, Except.ok y => Decidable.isTrue (by cases x; cases y; rfl)
  | Except.error x, Except.error y =>
    if h : x = y then Decidable.isTrue (by rw [h])
    else Decidable.isFalse (fun hc => h (by injection hc))
  | Except.ok _, Except.error _ => Decidable.isFalse (fun hc => Except.noConfusion hc)
  | Except.error _, Except.ok _ => Decidable.isFalse (fun hc => Except.noConfusion hc)

/-- The observable result of one dispatch: the invoked entries (index in
registration order, paired with the action), the registry left behind, and
the lines printed to the error stream. -/
structure MakeResult where
  invoked : List (Nat × Act)
  remaining : List (String × Act)
  stderr : List String
deriving DecidableEq, Repr

/-- `Maker::make` (`src/lib.rs:117-152`): resolve the requested name; when
a first matching entry exists, remove it (`Vec::remove`, i.e. `eraseIdx`)
and invoke it, reporting but not propagating its error; otherwise print the
help listing for the literal target `"help"`, or the unknown-command
diagnostic. -/
def errLines (act : Act) : List String :=
  match act with
  | Except.ok _ => []
  | Except.error err => ["An error occurred:", err]

def make (m : Maker) (args : List String) : MakeResult :=
  match requestedName args m.default with
  | none => ⟨[], m.commands, ["No command was given"]⟩
  | some target =>
    match findCmd m.commands target with
    | some (i, _, act) =>
      { invoked := [(i, act)]
        remaining := m.commands.eraseIdx i
        stderr := errLines act }
    | none =>
      if target = "help" then
        ⟨[], m.commands,
          "Available commands:" :: m.commands.map (fun p => "  " ++ p.1)⟩
      else
        ⟨[], m.commands, ["Unknown command: " ++ target]⟩

/-- A concrete filesystem: src.txt modified at 5, dst.txt at 7, nothing
else readable, no directories, everything writable, clock at 10. -/
def fs0 : FS :=
  { mtime := fun p => if p = ["src.txt"] then some 5 else
      if p = ["dst.txt"] then some 7 else none
    isDir := fun _ => false
    writable := fun _ => true
    now := 10 }

/-- A concrete filesystem where dst.txt does not exist yet. -/
def fsB : FS :=
  { mtime := fun p => if p = ["src.txt"] then some 5 else none
    isDir := fun _ => false
    writable := fun _ => true
    now := 10 }

/-- `fsB` after src.txt has been copied onto dst.txt. -/
def fsB' : FS :=
  { fsB with mtime := fun p => if p = ["dst.txt"] then some fsB.now else fsB.mtime p }

/-- A concrete filesystem where dst.txt cannot be written. -/
def fsC : FS :=
  { mtime := fun p => if p = ["src.txt"] then some 5 else none
    isDir := fun _ => false
    writable := fun p => if p = ["dst.txt"] then false else true
    now := 10 }

/-- A concrete filesystem whose destination "out" is a directory. -/
def fsD : FS :=
  { mtime := fun _ => none
    isDir := fun p => if p = ["out"] then true else false
    writable := fun _ => true
    now := 10 }

/-- A concrete dispatcher with a duplicated name, used by witnesses. -/
def m0 : Maker :=
  { commands := [("a", Except.ok ()), ("b", Except.ok ()), ("b", Except.error "boom")]
    default := none }

/-- A concrete dispatcher whose default names a failing action. -/
def m1 : Maker :=
  { commands := [("x", Except.error "boom")]
    default := some "x" }

/-- A concrete dispatcher with two entries registered under "help". -/
def m2 : Maker :=
  { commands := [("a", Except.ok ()), ("help", Except.error "h1"), ("help", Except.ok ())]
    default := none }

/-! ### Helper lemmas about the dispatcher -/

theorem findCmd_some_spec (cs : List (String × Act)) (t : String) (i : Nat)
    (n : String) (a : Act) (h : findCmd cs t = some (i, n, a)) :
    n = t ∧ cs.get? i = some (n, a) ∧
      ∀ j, j < i → ∀ p, cs.get? j = some p → p.1 ≠ t := by
  induction cs generalizing i with
  | nil => simp [findCmd] at h
  | cons hd rest ih =>
    obtain ⟨n0, a0⟩ := hd
    by_cases hn : n0 = t
    · simp [findCmd, hn] at h
      obtain ⟨hi, hn', ha⟩ := h
      subst hi; subst hn'; subst ha
      exact ⟨rfl, by simp [hn], fun j hj => absurd hj (Nat.not_lt_zero j)⟩
    · simp only [findCmd, if_neg hn, Option.map_eq_some'] at h
      obtain ⟨⟨qi, qn, qa⟩, hq, hf⟩ := h
      cases hf
      obtain ⟨h1, h2, h3⟩ := ih qi hq
      refine ⟨h1, by simpa using h2, ?_⟩
      intro j hj p hp
      cases j with
      | zero =>
        simp at hp
        subst hp
        exact hn
      | succ j' =>
        exact h3 j' (Nat.lt_of_succ_lt_succ hj) p (by simpa using hp)

theorem findCmd_none_spec (cs : List (String × Act)) (t : String) :
    findCmd cs t = none ↔ ∀ p ∈ cs, p.1 ≠ t := by
  induction cs with
  | nil => simp [findCmd]
  | cons hd rest ih =>
    obtain ⟨n0, a0⟩ := hd
    by_cases hn : n0 = t
    · subst hn
      simp [findCmd]
    · simp [findCmd, hn, Option.map_eq_none', ih]

theorem make_no_target (m : Maker) (args : List String)
    (hreq : requestedName args m.default = none) :
    make m args = ⟨[], m.commands, ["No command was given"]⟩ := by
  simp [make, hreq]

theorem make_found (m : Maker) (args : List String) (target : String)
    (i : Nat) (n : String) (act : Act)
    (hreq : requestedName args m.default = some target)
    (hfind : findCmd m.commands target = some (i, n, act)) :
    make m args = ⟨[(i, act)], m.commands.eraseIdx i, errLines act⟩ := by
  simp [make, hreq, hfind]

theorem make_not_found_help_eq (m : Maker) (args : List String)
    (hreq : requestedName args m.default = some "help")
    (hfind : findCmd m.commands "help" = none) :
    make m args = ⟨[], m.commands,
      "Available commands:" :: m.commands.map (fun p => "  " ++ p.1)⟩ := by
  simp [make, hreq, hfind]

theorem make_not_found_other (m : Maker) (args : List String) (target : String)
    (hreq : requestedName args m.default = some target)
    (hfind : findCmd m.commands target = none)
    (ht : target ≠ "help") :
    make m args = ⟨[], m.commands, ["Unknown command: " ++ target]⟩ := by
  simp [make, hreq, hfind, ht]

theorem make_invoked_cases (m : Maker) (args : List String) (i : Nat) (act : Act)
    (h : (make m args).invoked = [(i, act)]) :
    ∃ target n, requestedName args m.default = some target ∧
      findCmd m.commands target = some (i, n, act) ∧
      make m args = ⟨[(i, act)], m.commands.eraseIdx i, errLines act⟩ := by
  cases hreq : requestedName args m.default with
  | none => rw [make_no_target m args hreq] at h; simp at h
  | some target =>
    cases hfind : findCmd m.commands target with
    | none =>
      by_cases ht : target = "help"
      · subst ht
        rw [make_not_found_help_eq m args hreq hfind] at h
        simp at h
      · rw [make_not_found_other m args target hreq hfind ht] at h
        simp at h
    | some q =>
      obtain ⟨qi, qn, qa⟩ := q
      rw [make_found m args target qi qn qa hreq hfind] at h
      simp at h
      obtain ⟨hi, ha⟩ := h
      subst hi; subst ha
      exact ⟨target, qn, rfl, hfind, make_found m args target qi qn qa hreq hfind⟩

/-! ### Claim theorems about the dispatcher -/

/-- C1: every dispatch invokes at most one action; when an action is
invoked it belongs to the first registered entry (in registration order)
whose name equals the requested name, and dispatch removes exactly that
entry from the registry (`Vec::remove` at the matched index) when invoking
it. -/
theorem make_first_match_selected (m : Maker) (args : List String) :
    (make m args).invoked.length ≤ 1 ∧
    ∀ i act, (make m args).invoked = [(i, act)] →
      ∃ target, requestedName args m.default = some target ∧
        m.commands.get? i = some (target, act) ∧
        (∀ j, j < i → ∀ p, m.commands.get? j = some p → p.1 ≠ target) ∧
        (make m args).remaining = m.commands.eraseIdx i := by
  constructor
  · cases hreq : requestedName args m.default with
    | none => rw [make_no_target m args hreq]; simp
    | some target =>
      cases hfind : findCmd m.commands target with
      | none =>
        by_cases ht : target = "help"
        · subst ht; rw [make_not_found_help_eq m args hreq hfind]; simp
        · rw [make_not_found_other m args target hreq hfind ht]; simp
      | some q =>
        obtain ⟨qi, qn, qa⟩ := q
        rw [make_found m args target qi qn qa hreq hfind]
        simp
  · intro i act hinv
    obtain ⟨target, n, hreq, hfind, heq⟩ := make_invoked_cases m args i act hinv
    obtain ⟨h1, h2, h3⟩ := findCmd_some_spec m.commands target i n act hfind
    exact ⟨target, hreq, by rw [← h1]; exact h2, h3, by rw [heq]⟩

/-- C1 witness: dispatching "b" on `m0` selects index 1, the first of the
two entries named "b", and removes it. -/
theorem make_first_match_selected_witness :
    ∃ target, requestedName ["b"] m0.default = some target ∧
      m0.commands.get? 1 = some (target, Except.ok ()) ∧
      (∀ j, j < 1 → ∀ p, m0.commands.get? j = some p → p.1 ≠ target) ∧
      (make m0 ["b"]).remaining = m0.commands.eraseIdx 1 :=
  (make_first_match_selected m0 ["b"]).2 1 (Except.ok ()) rfl

/-- C2: the requested name is the first external argument when one is
supplied, else the configured default; when neither exists, no action is
invoked, "No command was given" is printed to the error stream, and `make`
returns normally (a plain `MakeResult`, no error). -/
theorem make_requested_name_precedence (m : Maker) (args : List String) :
    (∀ a rest, args = a :: rest → requestedName args m.default = some a) ∧
    (args = [] → ∀ d, m.default = some d → requestedName args m.default = some d) ∧
    (args = [] → m.default = none →
      make m args = ⟨[], m.commands, ["No command was given"]⟩) := by
  refine ⟨?_, ?_, ?_⟩
  · intro a rest h
    subst h
    rfl
  · intro h d hd
    subst h
    simp [requestedName, hd]
  · intro h hd
    subst h
    exact make_no_target m [] (by simp [requestedName, hd])

/-- C2 witness: `m0` has no default, so a dispatch with no arguments
prints the diagnostic and invokes nothing. -/
theorem make_requested_name_precedence_witness :
    make m0 [] = ⟨[], m0.commands, ["No command was given"]⟩ :=
  (make_requested_name_precedence m0 []).2.2 rfl rfl

/-- C3: when the invoked action fails, the dispatch prints
"An error occurred:" followed by the error's description to the error
stream and returns normally (the result is an ordinary `MakeResult`; the
failure is not propagated out of `make`). -/
theorem make_action_error_reported (m : Maker) (args : List String)
    (i : Nat) (e : String)
    (hinv : (make m args).invoked = [(i, Except.error e)]) :
    (make m args).stderr = ["An error occurred:", e] := by
  obtain ⟨target, n, hreq, hfind, heq⟩ :=
    make_invoked_cases m args i (Except.error e) hinv
  rw [heq]
  rfl

/-- C3 witness: `m1` falls back to its default "x", whose action fails
with "boom"; the two diagnostic lines are printed. -/
theorem make_action_error_reported_witness :
    (make m1 []).stderr = ["An error occurred:", "boom"] :=
  make_action_error_reported m1 [] 0 "boom" rfl

/-- C4: when the requested name is "help" and no registered entry is named
"help", the dispatch invokes no action, leaves the registry intact, and
prints the listing to the error stream: a header line followed by each
registered command's name on its own line, in registration order. -/
theorem make_help_lists_commands (m : Maker) (args : List String)
    (hreq : requestedName args m.default = some "help")
    (hnone : ∀ p ∈ m.commands, p.1 ≠ "help") :
    make m args = ⟨[], m.commands,
      "Available commands:" :: m.commands.map (fun p => "  " ++ p.1)⟩ :=
  make_not_found_help_eq m args hreq ((findCmd_none_spec m.commands "help").mpr hnone)

/-- C4 witness: `m0` has no entry named "help"; dispatching "help" prints
the three registered names in order and invokes nothing. -/
theorem make_help_lists_commands_witness :
    make m0 ["help"] = ⟨[], m0.commands,
      "Available commands:" :: m0.commands.map (fun p => "  " ++ p.1)⟩ :=
  make_help_lists_commands m0 ["help"] rfl (by decide)

/-- C10: when some registered entry is named "help", dispatching "help"
invokes the first such entry's action and prints no help listing. -/
theorem make_help_command_shadows_listing (m : Maker)
    (h : ∃ p ∈ m.commands, p.1 = "help") :
    (∃ i act, (make m ["help"]).invoked = [(i, act)] ∧
      m.commands.get? i = some ("help", act) ∧
      ∀ j, j < i → ∀ p, m.commands.get? j = some p → p.1 ≠ "help") ∧
    (make m ["help"]).stderr.head? ≠ some "Available commands:" := by
  have hne : findCmd m.commands "help" ≠ none := by
    rw [Ne, findCmd_none_spec]
    push_neg
    obtain ⟨p, hp, he⟩ := h
    exact ⟨p, hp, he⟩
  cases hfind : findCmd m.commands "help" with
  | none => exact absurd hfind hne
  | some q =>
    obtain ⟨qi, qn, qa⟩ := q
    have hreq : requestedName ["help"] m.default = some "help" := rfl
    have heq := make_found m ["help"] "help" qi qn qa hreq hfind
    obtain ⟨h1, h2, h3⟩ := findCmd_some_spec m.commands "help" qi qn qa hfind
    refine ⟨⟨qi, qa, by rw [heq], by rw [← h1]; exact h2, h3⟩, ?_⟩
    rw [heq]
    cases qa with
    | ok u => simp [errLines]
    | error e =>
      simp only [errLines, List.head?]
      decide

/-- C10 witness: `m2` registers two entries named "help"; dispatching
"help" invokes the first of them and prints no listing. -/
theorem make_help_command_shadows_listing_witness :
    (∃ i act, (make m2 ["help"]).invoked = [(i, act)] ∧
      m2.commands.get? i = some ("help", act) ∧
      ∀ j, j < i → ∀ p, m2.commands.get? j = some p → p.1 ≠ "help") ∧
    (make m2 ["help"]).stderr.head? ≠ some "Available commands:" :=
  make_help_command_shadows_listing m2 ⟨("help", Except.error "h1"), by decide, rfl⟩

/-! ### Helper lemmas about the copier -/

theorem effectiveDest_cases (fs : FS) (src dest : Path) :
    (fs.isDir dest = true ∧ fileName src = none ∧
      effectiveDest fs src dest =
        Except.error "Source has no filename and dest is a dir") ∨
    (∃ d, effectiveDest fs src dest = Except.ok d) := by
  unfold effectiveDest
  by_cases hdir : fs.isDir dest = true
  · cases hf : fileName src with
    | none => exact Or.inl ⟨hdir, rfl, by rw [if_pos hdir]⟩
    | some f => exact Or.inr ⟨dest ++ [f], by rw [if_pos hdir]⟩
  · exact Or.inr ⟨dest, by rw [if_neg hdir]⟩

theorem effectiveDest_congr (fs fs2 : FS) (src dest : Path)
    (h : fs2.isDir = fs.isDir) :
    effectiveDest fs2 src dest = effectiveDest fs src dest := by
  unfold effectiveDest
  rw [h]

theorem fsCopy_some_inv (fs : FS) (src dst : Path) (fs2 : FS)
    (h : fsCopy fs src dst = some fs2) :
    (fs.mtime src).isSome = true ∧ fs.writable dst = true ∧
      fs2 = { fs with
        mtime := fun p => if p = dst then some fs.now else fs.mtime p } := by
  unfold fsCopy at h
  by_cases hc : ((fs.mtime src).isSome && fs.writable dst) = true
  · rw [if_pos hc] at h
    cases h
    simp at hc
    exact ⟨hc.1, hc.2, rfl⟩
  · rw [if_neg hc] at h
    cases h

theorem copyOne_static (fs : FS) (s dest : Path) (fs2 : FS) (o : WriteOutcome)
    (h : copyOne fs s dest = Except.ok (fs2, o)) :
    fs2.isDir = fs.isDir ∧ fs2.writable = fs.writable ∧ fs2.now = fs.now := by
  unfold copyOne at h
  cases hd : effectiveDest fs s dest with
  | error e => exact Except.noConfusion (by simpa only [hd] using h)
  | ok d =>
    simp only [hd] at h
    by_cases hn : (is_newer fs s d).getD true = true
    · rw [if_pos hn] at h
      cases hc : fsCopy fs s d with
      | some fs3 =>
        simp only [hc] at h
        cases h
        obtain ⟨-, -, hfs3⟩ := fsCopy_some_inv fs s d _ hc
        subst hfs3
        exact ⟨rfl, rfl, rfl⟩
      | none =>
        simp only [hc] at h
        cases h
        exact ⟨rfl, rfl, rfl⟩
    · rw [if_neg hn] at h
      cases h
      exact ⟨rfl, rfl, rfl⟩

theorem copyOne_ok (fs : FS) (s dest : Path)
    (h : fs.isDir dest = true → (fileName s).isSome) :
    ∃ p, copyOne fs s dest = Except.ok p := by
  rcases effectiveDest_cases fs s dest with ⟨hdir, hf, -⟩ | ⟨d, hd⟩
  · have := h hdir
    rw [hf] at this
    simp at this
  · simp only [copyOne, hd]
    by_cases hn : (is_newer fs s d).getD true = true
    · rw [if_pos hn]
      cases hc : fsCopy fs s d with
      | some fs2 => exact ⟨(fs2, WriteOutcome.wrote), rfl⟩
      | none => exact ⟨(fs, WriteOutcome.failedWrite), rfl⟩
    · rw [if_neg hn]
      exact ⟨(fs, WriteOutcome.skipped), rfl⟩

theorem copy_ok_of_filenames (srcs : List Path) (fs : FS) (dest : Path)
    (h : ∀ x ∈ srcs, fs.isDir dest = true → (fileName x).isSome) :
    ∃ r, copy fs srcs dest = Except.ok r := by
  induction srcs generalizing fs with
  | nil => exact ⟨(fs, []), rfl⟩
  | cons s rest ih =>
    obtain ⟨⟨fs2, o⟩, hone⟩ := copyOne_ok fs s dest (h s (by simp))
    have hstatic := copyOne_static fs s dest fs2 o hone
    obtain ⟨⟨fs3, os⟩, hrest⟩ :=
      ih fs2 (fun x hx => by rw [hstatic.1]; exact h x (by simp [hx]))
    exact ⟨(fs3, o :: os), by simp [copy, hone, hrest]⟩

theorem copy_singleton (fs : FS) (s dest : Path) :
    copy fs [s] dest = (copyOne fs s dest).map (fun p => (p.1, [p.2])) := by
  cases h : copyOne fs s dest with
  | error e => simp [copy, h, Except.map]
  | ok p =>
    obtain ⟨fs2, o⟩ := p
    simp [copy, h, Except.map]

theorem copyOne_inv (fs : FS) (s dest : Path) (fs2 : FS) (o : WriteOutcome)
    (h : copyOne fs s dest = Except.ok (fs2, o)) :
    ∃ d, effectiveDest fs s dest = Except.ok d ∧
      ((o = WriteOutcome.skipped ∧ fs2 = fs ∧ is_newer fs s d = some false) ∨
       (o = WriteOutcome.failedWrite ∧ fs2 = fs ∧
         (is_newer fs s d).getD true = true ∧ fsCopy fs s d = none) ∨
       (o = WriteOutcome.wrote ∧
         (is_newer fs s d).getD true = true ∧ fsCopy fs s d = some fs2)) := by
  unfold copyOne at h
  cases hd : effectiveDest fs s dest with
  | error e => exact Except.noConfusion (by simpa only [hd] using h)
  | ok d =>
    simp only [hd] at h
    refine ⟨d, rfl, ?_⟩
    by_cases hn : (is_newer fs s d).getD true = true
    · rw [if_pos hn] at h
      cases hc : fsCopy fs s d with
      | some fs3 =>
        simp only [hc] at h
        cases h
        exact Or.inr (Or.inr ⟨rfl, hn, rfl⟩)
      | none =>
        simp only [hc] at h
        cases h
        exact Or.inr (Or.inl ⟨rfl, rfl, hn, rfl⟩)
    · rw [if_neg hn] at h
      cases h
      have hfalse : is_newer fs s d = some false := by
        cases hn' : is_newer fs s d with
        | none => rw [hn'] at hn; simp at hn
        | some b =>
          cases b with
          | true => rw [hn'] at hn; simp at hn
          | false => rfl
      exact Or.inl ⟨rfl, rfl, hfalse⟩

/-! ### Claim theorems about the comparator and the copier -/

/-- C5: `is_newer` reads both modification times and returns whether the
target's strictly exceeds the base's (so equal timestamps give `false`),
and errors exactly when either path's modification time cannot be read. -/
theorem is_newer_spec (fs : FS) (target base : Path) :
    (∀ t b, fs.mtime target = some t → fs.mtime base = some b →
      is_newer fs target base = some (decide (b < t))) ∧
    (∀ t, fs.mtime target = some t → fs.mtime base = some t →
      is_newer fs target base = some false) ∧
    (is_newer fs target base = none ↔
      fs.mtime target = none ∨ fs.mtime base = none) := by
  refine ⟨?_, ?_, ?_⟩
  · intro t b ht hb
    simp [is_newer, ht, hb]
  · intro t ht hb
    simp [is_newer, ht, hb]
  · cases ht : fs.mtime target <;> cases hb : fs.mtime base <;>
      simp [is_newer, ht, hb]

/-- C5 witness: in `fs0`, dst.txt (mtime 7) is newer than src.txt
(mtime 5). -/
theorem is_newer_spec_witness :
    is_newer fs0 ["dst.txt"] ["src.txt"] = some (decide (5 < 7)) :=
  (is_newer_spec fs0 ["dst.txt"] ["src.txt"]).1 7 5 rfl rfl

/-- C6: when the staleness comparator fails on (source, effective
destination), the failure is treated as "should copy": the iteration
attempts the file copy for that item (the outcome is `wrote` or
`failedWrite`, never `skipped`) instead of raising the comparator's
error. -/
theorem comparator_failure_still_copies (fs : FS) (src dest d : Path)
    (hd : effectiveDest fs src dest = Except.ok d)
    (hcmp : is_newer fs src d = none) :
    (fsCopy fs src d = none →
      copyOne fs src dest = Except.ok (fs, WriteOutcome.failedWrite)) ∧
    (∀ fs2, fsCopy fs src d = some fs2 →
      copyOne fs src dest = Except.ok (fs2, WriteOutcome.wrote)) := by
  constructor
  · intro hc
    simp [copyOne, hd, hcmp, hc]
  · intro fs2 hc
    simp [copyOne, hd, hcmp, hc]

/-- C6 witness: in `fsB` the destination dst.txt does not exist, so the
comparator fails, and the copy is attempted and performed. -/
theorem comparator_failure_still_copies_witness :
    copyOne fsB ["src.txt"] ["dst.txt"] = Except.ok (fsB', WriteOutcome.wrote) :=
  (comparator_failure_still_copies fsB ["src.txt"] ["dst.txt"] ["dst.txt"]
    rfl rfl).2 fsB' rfl

/-- C7: an individual file-copy failure is swallowed: the item's outcome
is `failedWrite` with the filesystem unchanged, iteration continues with
the remaining sources exactly as if the item had succeeded, and `copy` as
a whole returns success whenever no source triggers the missing-filename
error — its result never reflects individual copy failures. -/
theorem copy_item_failure_swallowed (fs : FS) (s : Path) (rest : List Path)
    (dest : Path) :
    (copyOne fs s dest = Except.ok (fs, WriteOutcome.failedWrite) →
      copy fs (s :: rest) dest =
        (copy fs rest dest).map (fun r => (r.1, WriteOutcome.failedWrite :: r.2))) ∧
    (∀ srcs, (∀ x ∈ srcs, fs.isDir dest = true → (fileName x).isSome) →
      ∃ r, copy fs srcs dest = Except.ok r) := by
  constructor
  · intro hone
    cases hrest : copy fs rest dest with
    | error e => simp [copy, hone, hrest, Except.map]
    | ok r =>
      obtain ⟨fs3, os⟩ := r
      simp [copy, hone, hrest, Except.map]
  · intro srcs h
    exact copy_ok_of_filenames srcs fs dest h

/-- C7 witness: in `fsC` the destination dst.txt is not writable, so the
first item's copy fails; the batch continues and still succeeds. -/
theorem copy_item_failure_swallowed_witness :
    copy fsC [["src.txt"], ["other.txt"]] ["dst.txt"] =
      (copy fsC [["other.txt"]] ["dst.txt"]).map
        (fun r => (r.1, WriteOutcome.failedWrite :: r.2)) :=
  (copy_item_failure_swallowed fsC ["src.txt"] [["other.txt"]] ["dst.txt"]).1 rfl

/-- C8: when the destination names an existing directory, a source with no
filename fails the entire copy call immediately with the descriptive error
(whatever sources remain are not processed); a source with a filename gets
the directory joined with that filename as its effective destination; and
when the destination is not an existing directory it is used verbatim. -/
theorem copy_missing_filename_fails (fs : FS) (s : Path) (rest : List Path)
    (dest : Path) :
    (fs.isDir dest = true → fileName s = none →
      copy fs (s :: rest) dest =
        Except.error "Source has no filename and dest is a dir") ∧
    (fs.isDir dest = true → ∀ f, fileName s = some f →
      effectiveDest fs s dest = Except.ok (dest ++ [f])) ∧
    (fs.isDir dest = false → effectiveDest fs s dest = Except.ok dest) := by
  refine ⟨?_, ?_, ?_⟩
  · intro hdir hf
    have hd : effectiveDest fs s dest =
        Except.error "Source has no filename and dest is a dir" := by
      unfold effectiveDest
      rw [if_pos hdir, hf]
    simp [copy, copyOne, hd]
  · intro hdir f hf
    unfold effectiveDest
    rw [if_pos hdir, hf]
  · intro hdir
    unfold effectiveDest
    rw [if_neg (by simp [hdir])]

/-- C8 witness: in `fsD` the destination "out" is a directory and the
empty source path has no filename, so the whole batch fails at once. -/
theorem copy_missing_filename_fails_witness :
    copy fsD [[], ["a.txt"]] ["out"] =
      Except.error "Source has no filename and dest is a dir" :=
  (copy_missing_filename_fails fsD [] [["a.txt"]] ["out"]).1 rfl rfl

/-- C9 counterexample: in `fs0` the destination dst.txt (mtime 7) is
already newer than the unchanged source src.txt (mtime 5), so the first of
the two copy calls already performs no filesystem write — it skips —
contradicting the claim that for every source and destination the first
call performs the write. -/
theorem copy_first_call_writes_counterexample :
    copy fs0 [["src.txt"]] ["dst.txt"] =
      Except.ok (fs0, [WriteOutcome.skipped]) := rfl

/-- C9 amended: whenever every recorded modification time is at most the
current clock, a second copy of the same unchanged source to the same
destination performs no write: it leaves the filesystem untouched and its
item is skipped (or, when the write primitive keeps failing, the failure
is swallowed again without a write). -/
theorem copy_second_call_no_write (fs : FS) (s dest : Path)
    (hclock : ∀ p t, fs.mtime p = some t → t ≤ fs.now)
    (fs1 : FS) (os : List WriteOutcome)
    (h1 : copy fs [s] dest = Except.ok (fs1, os)) :
    copy fs1 [s] dest = Except.ok (fs1, [WriteOutcome.skipped]) ∨
    copy fs1 [s] dest = Except.ok (fs1, [WriteOutcome.failedWrite]) := by
  rw [copy_singleton] at h1
  cases hone : copyOne fs s dest with
  | error e =>
    rw [hone] at h1
    exact Except.noConfusion h1
  | ok p =>
    obtain ⟨fs2, o⟩ := p
    rw [hone] at h1
    simp [Except.map] at h1
    obtain ⟨hfs, -⟩ := h1
    subst hfs
    obtain ⟨d, hd, hcase⟩ := copyOne_inv fs s dest fs2 o hone
    rcases hcase with ⟨ho, hfs2, hnew⟩ | ⟨ho, hfs2, hn, hc⟩ | ⟨ho, hn, hc⟩
    · subst hfs2
      left
      rw [copy_singleton, hone, ho]
      rfl
    · subst hfs2
      right
      rw [copy_singleton, hone, ho]
      rfl
    · obtain ⟨hsome, hw, hfs2⟩ := fsCopy_some_inv fs s d fs2 hc
      have hstatic : fs2.isDir = fs.isDir := by rw [hfs2]
      have hed2 : effectiveDest fs2 s dest = Except.ok d := by
        rw [effectiveDest_congr fs fs2 s dest hstatic, hd]
      have hnew2 : is_newer fs2 s d = some false := by
        rw [hfs2]
        by_cases hsd : s = d
        · subst hsd
          simp [is_newer]
        · obtain ⟨ts, hts⟩ := Option.isSome_iff_exists.mp hsome
          have hle := hclock s ts hts
          simp [is_newer, hsd, hts]
          omega
      left
      rw [copy_singleton]
      have hone2 : copyOne fs2 s dest = Except.ok (fs2, WriteOutcome.skipped) := by
        simp [copyOne, hed2, hnew2]
      rw [hone2]
      rfl

/-- C9 amended witness: starting from `fsB` (destination absent), the
first call writes, producing `fsB'`; the second call then performs no
write. -/
theorem copy_second_call_no_write_witness :
    copy fsB' [["src.txt"]] ["dst.txt"] =
      Except.ok (fsB', [WriteOutcome.skipped]) ∨
    copy fsB' [["src.txt"]] ["dst.txt"] =
      Except.ok (fsB', [WriteOutcome.failedWrite]) :=
  copy_second_call_no_write fsB ["src.txt"] ["dst.txt"]
    (by
      intro p t h
      unfold fsB at h
      simp only [] at h
      split at h
      · cases h
        decide
      · cases h)
    fsB' [WriteOutcome.wrote] rfl

end MakeRs
